import Mathlib

/-!
Verification of the fleet-optimization assignment engine: the function
`assign_jobs` of `src/Optimizer.py`, `src/ml_model/optimizer.py` and the
Lambda copy embedded in `src/ml_model/utils/features.py`, shallowly
embedded over lists of candidate records with exact rational arithmetic.

The three Python copies share one algorithm:

  available_carriers = set(df["carrier_id"].unique())
  for job_id, job_group in df.groupby("job_id"):
      job_group = job_group[job_group["carrier_id"].isin(available_carriers)]
      job_group["can_work"] = (job_group["carrier_hours_worked"]
                               + (job_group["p90_time_min"] / 60.0)) <= max_hours
      valid = job_group[job_group["can_work"]]
      if valid.empty: append unassigned dict; continue
      best_row = valid.loc[valid["p90_time_min"].idxmin()]
      append assigned dict; available_carriers.remove(best_row["carrier_id"])

Pandas facts reflected by the embedding: `df.groupby("job_id")` iterates
the distinct keys in ascending sorted order (default sort=True) and keeps
the original row order inside each group; `Series.idxmin` returns the
label of the first row attaining the minimum.  The copies differ only in
the dicts they append: `src/ml_model/optimizer.py` adds a
`carrier_hours_before` key to assigned results, the other two do not.
-/

/-- A candidate row of the predictions DataFrame: columns
`carrier_id, job_id, p90_time_min, carrier_hours_worked`. -/
structure CandidateRecord where
  carrier_id : String
  job_id : Int
  p90_time_min : Rat
  carrier_hours_worked : Rat
  deriving DecidableEq

/-- The distinct job ids in ascending order: the iteration order of
`df.groupby("job_id")` (pandas sorts the group keys). -/
def sortedJobIds (rs : List CandidateRecord) : List Int :=
  List.insertionSort (· ≤ ·) (rs.map (·.job_id)).dedup

/-- The rows of the group of job `j`, in original row order. -/
def jobGroup (rs : List CandidateRecord) (j : Int) : List CandidateRecord :=
  rs.filter (fun r => r.job_id = j)

/-- The initial carrier pool `set(df["carrier_id"].unique())`. -/
def initialPool (rs : List CandidateRecord) : List String :=
  (rs.map (·.carrier_id)).dedup

/-- The hour-cap predicate `can_work`:
`carrier_hours_worked + p90_time_min / 60.0 <= max_hours`. -/
def can_work (max_hours : Rat) (r : CandidateRecord) : Bool :=
  r.carrier_hours_worked + r.p90_time_min / 60 ≤ max_hours

/-- The `valid.loc[valid["p90_time_min"].idxmin()]` row: the first row attaining
the minimal `p90_time_min` (pandas `idxmin` returns the first such label),
`none` when the frame is empty. -/
def idxminRow : List CandidateRecord → Option CandidateRecord
  | [] => none
  | r :: rs =>
    match idxminRow rs with
    | none => some r
    | some b => if r.p90_time_min ≤ b.p90_time_min then some r else some b

/-- The `valid` frame for job `j` with pool `avail`: group rows restricted
to carriers still in the pool, then to those passing `can_work`. -/
def validRows (max_hours : Rat) (rs : List CandidateRecord)
    (avail : List String) (j : Int) : List CandidateRecord :=
  ((jobGroup rs j).filter (fun r => avail.contains r.carrier_id)).filter
    (can_work max_hours)

/-- The loop body for one job: the selected row `best_row`, if any. -/
def processJob (max_hours : Rat) (rs : List CandidateRecord)
    (avail : List String) (j : Int) : Option CandidateRecord :=
  idxminRow (validRows max_hours rs avail j)

/-- Pool update after one job: `available_carriers.remove(...)` on
assignment, unchanged otherwise. -/
def stepPool (max_hours : Rat) (rs : List CandidateRecord)
    (avail : List String) (j : Int) : List String :=
  match processJob max_hours rs avail j with
  | none => avail
  | some best => avail.erase best.carrier_id

/-- An element of the `assignments` list built by
`src/ml_model/optimizer.py` (the copy that records
`carrier_hours_before`). -/
inductive AssignmentResult where
  | assigned (job_id : Int) (carrier_id : String)
      (p90_time_min : Rat) (carrier_hours_before : Rat)
  | unassigned (job_id : Int) (reason : String)
  deriving DecidableEq

/-- The `job_id` entry of a result dict (present in both variants). -/
def AssignmentResult.jobId : AssignmentResult → Int
  | .assigned j _ _ _ => j
  | .unassigned j _ => j

/-- The hard-coded reason string of all three copies. -/
def noEligibleReason : String := "No eligible carriers under 9-hour limit"

/-- The dict appended for one job. -/
def resultForJob (j : Int) : Option CandidateRecord → AssignmentResult
  | none => .unassigned j noEligibleReason
  | some best => .assigned best.job_id best.carrier_id
      best.p90_time_min best.carrier_hours_worked

/-- The `for job_id, job_group in df.groupby("job_id")` loop. -/
def assignLoop (max_hours : Rat) (rs : List CandidateRecord) :
    List Int → List String → List AssignmentResult
  | [], _ => []
  | j :: js, avail =>
    resultForJob j (processJob max_hours rs avail j)
      :: assignLoop max_hours rs js (stepPool max_hours rs avail j)

/-- `assign_jobs(df, max_hours)` of `src/ml_model/optimizer.py`. -/
def assign_jobs (rs : List CandidateRecord) (max_hours : Rat) :
    List AssignmentResult :=
  assignLoop max_hours rs (sortedJobIds rs) (initialPool rs)

/-- The carriers of the Assigned results, in order. -/
def assignedCarriers (res : List AssignmentResult) : List String :=
  res.filterMap fun r =>
    match r with
    | .assigned _ c _ _ => some c
    | .unassigned _ _ => none

/-- The pool held just before the `k`-th iteration of the loop. -/
def poolBeforeJob (max_hours : Rat) (rs : List CandidateRecord) :
    List Int → List String → Nat → List String
  | _, avail, 0 => avail
  | [], avail, _ + 1 => avail
  | j :: js, avail, k + 1 =>
    poolBeforeJob max_hours rs js (stepPool max_hours rs avail j) k

/-- The successive pool states of a run, starting state included. -/
def poolTrace (max_hours : Rat) (rs : List CandidateRecord) :
    List Int → List String → List (List String)
  | [], avail => [avail]
  | j :: js, avail =>
    avail :: poolTrace max_hours rs js (stepPool max_hours rs avail j)

/-- A Python value occurring in a result dict of `src/Optimizer.py`. -/
inductive PyVal where
  | vint (n : Int)
  | vstr (s : String)
  | vrat (q : Rat)
  | vnone
  deriving DecidableEq

/-- The dict appended by `src/Optimizer.py` for one job: three keys on
assignment (`job_id, carrier_id, p90_time_min` — no
`carrier_hours_before`), three on failure. -/
def optimizerDict (j : Int) : Option CandidateRecord → List (String × PyVal)
  | none =>
      [("job_id", .vint j), ("carrier_id", .vnone),
       ("reason", .vstr noEligibleReason)]
  | some best =>
      [("job_id", .vint best.job_id), ("carrier_id", .vstr best.carrier_id),
       ("p90_time_min", .vrat best.p90_time_min)]

/-- The loop of `src/Optimizer.py`, at the dict level. -/
def assignLoopDicts (max_hours : Rat) (rs : List CandidateRecord) :
    List Int → List String → List (List (String × PyVal))
  | [], _ => []
  | j :: js, avail =>
    optimizerDict j (processJob max_hours rs avail j)
      :: assignLoopDicts max_hours rs js (stepPool max_hours rs avail j)

/-- `assign_jobs(df, max_hours)` of `src/Optimizer.py` (same algorithm,
dicts without `carrier_hours_before`). -/
def assign_jobs_Optimizer (rs : List CandidateRecord) (max_hours : Rat) :
    List (List (String × PyVal)) :=
  assignLoopDicts max_hours rs (sortedJobIds rs) (initialPool rs)

/-- A candidate row whose numeric cells may be missing: pandas stores a
missing value of a numeric column as NaN, modelled here as `none`. -/
structure CandidateRecordN where
  carrier_id : String
  job_id : Int
  p90_time_min : Option Rat
  carrier_hours_worked : Option Rat
  deriving DecidableEq

/-- Sorted distinct job ids of the NaN-aware model. -/
def sortedJobIdsN (rs : List CandidateRecordN) : List Int :=
  List.insertionSort (· ≤ ·) (rs.map (·.job_id)).dedup

/-- Group rows of job `j`, NaN-aware model. -/
def jobGroupN (rs : List CandidateRecordN) (j : Int) : List CandidateRecordN :=
  rs.filter (fun r => r.job_id = j)

/-- Initial carrier pool, NaN-aware model. -/
def initialPoolN (rs : List CandidateRecordN) : List String :=
  (rs.map (·.carrier_id)).dedup

/-- The `can_work` predicate over possibly-missing cells: in pandas every comparison
with NaN is False, so a row with a missing numeric cell is never
eligible. -/
def can_workN (max_hours : Rat) (r : CandidateRecordN) : Bool :=
  match r.carrier_hours_worked, r.p90_time_min with
  | some h, some t => h + t / 60 ≤ max_hours
  | _, _ => false

/-- The `idxmin` scan with pandas `skipna` semantics: NaN entries are skipped,
first row attaining the minimum wins. -/
def idxminRowN : List CandidateRecordN → Option CandidateRecordN
  | [] => none
  | r :: rs =>
    match r.p90_time_min, idxminRowN rs with
    | none, b => b
    | some _, none => some r
    | some t, some b =>
      match b.p90_time_min with
      | none => some r
      | some tb => if t ≤ tb then some r else some b

/-- The `valid` frame, NaN-aware model. -/
def validRowsN (max_hours : Rat) (rs : List CandidateRecordN)
    (avail : List String) (j : Int) : List CandidateRecordN :=
  ((jobGroupN rs j).filter (fun r => avail.contains r.carrier_id)).filter
    (can_workN max_hours)

/-- Loop body, NaN-aware model. -/
def processJobN (max_hours : Rat) (rs : List CandidateRecordN)
    (avail : List String) (j : Int) : Option CandidateRecordN :=
  idxminRowN (validRowsN max_hours rs avail j)

/-- Pool update, NaN-aware model. -/
def stepPoolN (max_hours : Rat) (rs : List CandidateRecordN)
    (avail : List String) (j : Int) : List String :=
  match processJobN max_hours rs avail j with
  | none => avail
  | some best => avail.erase best.carrier_id

/-- A result dict of the NaN-aware model; a NaN cell of the selected row
would be copied into the dict, hence the `Option` payloads. -/
inductive AssignmentResultN where
  | assigned (job_id : Int) (carrier_id : String)
      (p90_time_min : Option Rat) (carrier_hours_before : Option Rat)
  | unassigned (job_id : Int) (reason : String)
  deriving DecidableEq

/-- The `job_id` entry of a NaN-aware result. -/
def AssignmentResultN.jobId : AssignmentResultN → Int
  | .assigned j _ _ _ => j
  | .unassigned j _ => j

/-- The dict appended for one job, NaN-aware model. -/
def resultForJobN (j : Int) : Option CandidateRecordN → AssignmentResultN
  | none => .unassigned j noEligibleReason
  | some best => .assigned best.job_id best.carrier_id
      best.p90_time_min best.carrier_hours_worked

/-- The grouped loop, NaN-aware model. -/
def assignLoopN (max_hours : Rat) (rs : List CandidateRecordN) :
    List Int → List String → List AssignmentResultN
  | [], _ => []
  | j :: js, avail =>
    resultForJobN j (processJobN max_hours rs avail j)
      :: assignLoopN max_hours rs js (stepPoolN max_hours rs avail j)

/-- `assign_jobs` run over rows that may carry missing numeric cells. -/
def assign_jobsN (rs : List CandidateRecordN) (max_hours : Rat) :
    List AssignmentResultN :=
  assignLoopN max_hours rs (sortedJobIdsN rs) (initialPoolN rs)

/-! ## Selection lemmas -/

theorem idxminRow_eq_none {l : List CandidateRecord} :
    idxminRow l = none ↔ l = [] := by
  cases l with
  | nil => simp [idxminRow]
  | cons r t =>
    rw [idxminRow]
    cases idxminRow t with
    | none => simp
    | some b => dsimp only; split <;> simp

theorem idxminRow_mem {l : List CandidateRecord} :
    ∀ {b : CandidateRecord}, idxminRow l = some b → b ∈ l := by
  induction l with
  | nil => intro b h; simp [idxminRow] at h
  | cons r t ih =>
    intro b h
    rw [idxminRow] at h
    cases ht : idxminRow t with
    | none =>
      rw [ht] at h
      dsimp only at h
      injection h with h
      subst h
      exact List.mem_cons_self _ _
    | some b' =>
      rw [ht] at h
      dsimp only at h
      by_cases hle : r.p90_time_min ≤ b'.p90_time_min
      · rw [if_pos hle] at h
        injection h with h
        subst h
        exact List.mem_cons_self _ _
      · rw [if_neg hle] at h
        injection h with h
        subst h
        exact List.mem_cons_of_mem _ (ih ht)

theorem idxminRow_min {l : List CandidateRecord} :
    ∀ {b : CandidateRecord}, idxminRow l = some b →
      ∀ x ∈ l, b.p90_time_min ≤ x.p90_time_min := by
  induction l with
  | nil => intro b h; simp [idxminRow] at h
  | cons r t ih =>
    intro b h
    rw [idxminRow] at h
    cases ht : idxminRow t with
    | none =>
      rw [ht] at h
      dsimp only at h
      injection h with h
      subst h
      have htnil : t = [] := idxminRow_eq_none.mp ht
      subst htnil
      intro x hx
      rcases List.mem_singleton.mp hx with rfl
      exact le_refl _
    | some b' =>
      rw [ht] at h
      dsimp only at h
      by_cases hle : r.p90_time_min ≤ b'.p90_time_min
      · rw [if_pos hle] at h
        injection h with h
        subst h
        intro x hx
        rcases List.mem_cons.mp hx with rfl | hxt
        · exact le_refl _
        · exact le_trans hle (ih ht x hxt)
      · rw [if_neg hle] at h
        injection h with h
        subst h
        intro x hx
        rcases List.mem_cons.mp hx with rfl | hxt
        · exact le_of_lt (lt_of_not_le hle)
        · exact ih ht x hxt

theorem idxminRow_first {l : List CandidateRecord} :
    ∀ {b : CandidateRecord}, idxminRow l = some b →
      l.find? (fun x => decide (x.p90_time_min = b.p90_time_min)) = some b := by
  induction l with
  | nil => intro b h; simp [idxminRow] at h
  | cons r t ih =>
    intro b h
    rw [idxminRow] at h
    cases ht : idxminRow t with
    | none =>
      rw [ht] at h
      dsimp only at h
      injection h with h
      subst h
      exact List.find?_cons_of_pos _ (by simp)
    | some b' =>
      rw [ht] at h
      dsimp only at h
      by_cases hle : r.p90_time_min ≤ b'.p90_time_min
      · rw [if_pos hle] at h
        injection h with h
        subst h
        exact List.find?_cons_of_pos _ (by simp)
      · rw [if_neg hle] at h
        injection h with h
        subst h
        have hne : r.p90_time_min ≠ b'.p90_time_min := fun he => hle (le_of_eq he)
        rw [List.find?_cons_of_neg _ (by simp [hne])]
        exact ih ht

/-! ## Eligibility lemmas -/

theorem mem_validRows {max_hours : Rat} {rs : List CandidateRecord}
    {avail : List String} {j : Int} {r : CandidateRecord} :
    r ∈ validRows max_hours rs avail j ↔
      r ∈ rs ∧ r.job_id = j ∧ r.carrier_id ∈ avail ∧
        can_work max_hours r = true := by
  simp [validRows, jobGroup, List.mem_filter, and_assoc]
  tauto

theorem processJob_mem {max_hours : Rat} {rs : List CandidateRecord}
    {avail : List String} {j : Int} {b : CandidateRecord}
    (h : processJob max_hours rs avail j = some b) :
    b ∈ rs ∧ b.job_id = j ∧ b.carrier_id ∈ avail ∧
      can_work max_hours b = true :=
  mem_validRows.mp (idxminRow_mem h)

theorem can_work_le {max_hours : Rat} {r : CandidateRecord}
    (h : can_work max_hours r = true) :
    r.carrier_hours_worked + r.p90_time_min / 60 ≤ max_hours := by
  simpa [can_work] using h

/-! ## Loop lemmas -/

theorem stepPool_none {max_hours : Rat} {rs : List CandidateRecord}
    {avail : List String} {j : Int}
    (h : processJob max_hours rs avail j = none) :
    stepPool max_hours rs avail j = avail := by
  simp [stepPool, h]

theorem stepPool_some {max_hours : Rat} {rs : List CandidateRecord}
    {avail : List String} {j : Int} {b : CandidateRecord}
    (h : processJob max_hours rs avail j = some b) :
    stepPool max_hours rs avail j = avail.erase b.carrier_id := by
  simp [stepPool, h]

theorem assignLoop_map_jobId (max_hours : Rat) (rs : List CandidateRecord) :
    ∀ (js : List Int) (avail : List String),
      (assignLoop max_hours rs js avail).map AssignmentResult.jobId = js := by
  intro js
  induction js with
  | nil => intro avail; rfl
  | cons j js ih =>
    intro avail
    rw [assignLoop]
    cases hp : processJob max_hours rs avail j with
    | none => simp [resultForJob, AssignmentResult.jobId, ih]
    | some best =>
      have hb := processJob_mem hp
      simp [resultForJob, AssignmentResult.jobId, ih, hb.2.1]

theorem assignLoop_length (max_hours : Rat) (rs : List CandidateRecord)
    (js : List Int) (avail : List String) :
    (assignLoop max_hours rs js avail).length = js.length := by
  have := congrArg List.length (assignLoop_map_jobId max_hours rs js avail)
  simpa using this

theorem mem_assignLoop_assigned {max_hours : Rat} {rs : List CandidateRecord} :
    ∀ {js : List Int} {avail : List String} {res : AssignmentResult},
      res ∈ assignLoop max_hours rs js avail →
      ∀ {jid : Int} {c : String} {t hb : Rat},
        res = AssignmentResult.assigned jid c t hb →
        ∃ r, r ∈ rs ∧ r.job_id = jid ∧ r.carrier_id = c ∧ r.p90_time_min = t ∧
          r.carrier_hours_worked = hb ∧ can_work max_hours r = true := by
  intro js
  induction js with
  | nil => intro avail res h; simp [assignLoop] at h
  | cons j js ih =>
    intro avail res h jid c t hb he
    rw [assignLoop] at h
    rcases List.mem_cons.mp h with rfl | htail
    · cases hp : processJob max_hours rs avail j with
      | none => rw [hp] at he; simp [resultForJob] at he
      | some best =>
        rw [hp] at he
        rw [resultForJob] at he
        injection he with h1 h2 h3 h4
        obtain ⟨hmem, hjob, _, hcw⟩ := processJob_mem hp
        exact ⟨best, hmem, h1, h2, h3, h4, hcw⟩
    · exact ih htail he

theorem mem_assignLoop_unassigned {max_hours : Rat} {rs : List CandidateRecord} :
    ∀ {js : List Int} {avail : List String} {res : AssignmentResult},
      res ∈ assignLoop max_hours rs js avail →
      ∀ {j : Int} {reas : String},
        res = AssignmentResult.unassigned j reas → reas = noEligibleReason := by
  intro js
  induction js with
  | nil => intro avail res h; simp [assignLoop] at h
  | cons j js ih =>
    intro avail res h j' reas he
    rw [assignLoop] at h
    rcases List.mem_cons.mp h with rfl | htail
    · cases hp : processJob max_hours rs avail j with
      | none =>
        rw [hp] at he
        rw [resultForJob] at he
        injection he with h1 h2
        exact h2.symm
      | some best => rw [hp] at he; simp [resultForJob] at he
    · exact ih htail he

theorem assignedCarriers_cons_unassigned (j : Int) (reas : String)
    (res : List AssignmentResult) :
    assignedCarriers (AssignmentResult.unassigned j reas :: res) =
      assignedCarriers res := rfl

theorem assignedCarriers_cons_assigned (j : Int) (c : String) (t hb : Rat)
    (res : List AssignmentResult) :
    assignedCarriers (AssignmentResult.assigned j c t hb :: res) =
      c :: assignedCarriers res := rfl

theorem assignLoop_carriers_nodup (max_hours : Rat) (rs : List CandidateRecord) :
    ∀ (js : List Int) (avail : List String), avail.Nodup →
      (assignedCarriers (assignLoop max_hours rs js avail)).Nodup ∧
        ∀ c ∈ assignedCarriers (assignLoop max_hours rs js avail), c ∈ avail := by
  intro js
  induction js with
  | nil => intro avail _; exact ⟨List.nodup_nil, by intro c hc; simp [assignLoop, assignedCarriers] at hc⟩
  | cons j js ih =>
    intro avail hnd
    rw [assignLoop]
    cases hp : processJob max_hours rs avail j with
    | none =>
      rw [stepPool_none hp, resultForJob]
      rw [assignedCarriers_cons_unassigned]
      exact ih avail hnd
    | some best =>
      rw [stepPool_some hp, resultForJob]
      rw [assignedCarriers_cons_assigned]
      have hbav : best.carrier_id ∈ avail := (processJob_mem hp).2.2.1
      obtain ⟨ihnd, ihsub⟩ := ih (avail.erase best.carrier_id) (hnd.erase _)
      constructor
      · refine List.nodup_cons.mpr ⟨fun hmem => ?_, ihnd⟩
        have : best.carrier_id ∈ avail.erase best.carrier_id := ihsub _ hmem
        exact ((hnd.mem_erase_iff).mp this).1 rfl
      · intro c hc
        rcases List.mem_cons.mp hc with rfl | hct
        · exact hbav
        · exact List.erase_subset _ _ (ihsub c hct)

theorem assignLoop_get? (max_hours : Rat) (rs : List CandidateRecord) :
    ∀ (js : List Int) (avail : List String) (k : Nat) (j : Int),
      js.get? k = some j →
      (assignLoop max_hours rs js avail).get? k =
        some (resultForJob j
          (processJob max_hours rs (poolBeforeJob max_hours rs js avail k) j)) := by
  intro js
  induction js with
  | nil => intro avail k j hj; simp at hj
  | cons j0 js ih =>
    intro avail k j hj
    cases k with
    | zero =>
      simp only [List.get?] at hj
      injection hj with hj
      subst hj
      rfl
    | succ k =>
      simp only [List.get?] at hj
      rw [assignLoop, poolBeforeJob]
      simpa using ih (stepPool max_hours rs avail j0) k j hj

theorem poolTrace_head (max_hours : Rat) (rs : List CandidateRecord)
    (js : List Int) (avail : List String) :
    (poolTrace max_hours rs js avail).head? = some avail := by
  cases js <;> rfl

theorem stepPool_length_le (max_hours : Rat) (rs : List CandidateRecord)
    (avail : List String) (j : Int) :
    (stepPool max_hours rs avail j).length ≤ avail.length := by
  rw [stepPool]
  cases processJob max_hours rs avail j with
  | none => exact le_refl _
  | some best => exact (List.erase_sublist _ _).length_le

theorem poolTrace_chain (max_hours : Rat) (rs : List CandidateRecord) :
    ∀ (js : List Int) (avail : List String),
      List.Chain' (fun p q : List String => q.length ≤ p.length)
        (poolTrace max_hours rs js avail) := by
  intro js
  induction js with
  | nil => intro avail; simp [poolTrace]
  | cons j js ih =>
    intro avail
    rw [poolTrace]
    refine List.chain'_cons'.mpr ⟨?_, ih _⟩
    intro q hq
    rw [poolTrace_head] at hq
    injection hq with hq
    subst hq
    exact stepPool_length_le max_hours rs avail j

/-! ## NaN-aware model lemmas -/

theorem idxminRowN_mem {l : List CandidateRecordN} :
    ∀ {b : CandidateRecordN}, idxminRowN l = some b → b ∈ l := by
  induction l with
  | nil => intro b h; simp [idxminRowN] at h
  | cons r t ih =>
    intro b h
    rw [idxminRowN] at h
    cases hr : r.p90_time_min with
    | none =>
      rw [hr] at h
      dsimp only at h
      exact List.mem_cons_of_mem _ (ih h)
    | some tr =>
      rw [hr] at h
      cases ht : idxminRowN t with
      | none =>
        rw [ht] at h
        dsimp only at h
        injection h with h
        subst h
        exact List.mem_cons_self _ _
      | some b' =>
        rw [ht] at h
        dsimp only at h
        cases hb' : b'.p90_time_min with
        | none =>
          rw [hb'] at h
          dsimp only at h
          injection h with h
          subst h
          exact List.mem_cons_self _ _
        | some tb =>
          rw [hb'] at h
          dsimp only at h
          by_cases hle : tr ≤ tb
          · rw [if_pos hle] at h
            injection h with h
            subst h
            exact List.mem_cons_self _ _
          · rw [if_neg hle] at h
            injection h with h
            subst h
            exact List.mem_cons_of_mem _ (ih ht)

theorem mem_validRowsN {max_hours : Rat} {rs : List CandidateRecordN}
    {avail : List String} {j : Int} {r : CandidateRecordN} :
    r ∈ validRowsN max_hours rs avail j ↔
      r ∈ rs ∧ r.job_id = j ∧ r.carrier_id ∈ avail ∧
        can_workN max_hours r = true := by
  simp [validRowsN, jobGroupN, List.mem_filter, and_assoc]
  tauto

theorem can_workN_cells {max_hours : Rat} {r : CandidateRecordN}
    (h : can_workN max_hours r = true) :
    r.p90_time_min ≠ none ∧ r.carrier_hours_worked ≠ none := by
  rw [can_workN] at h
  cases hh : r.carrier_hours_worked with
  | none => rw [hh] at h; simp at h
  | some hq =>
    cases hp : r.p90_time_min with
    | none => rw [hh, hp] at h; simp at h
    | some tq => exact ⟨by simp [hp], by simp [hh]⟩

theorem processJobN_mem {max_hours : Rat} {rs : List CandidateRecordN}
    {avail : List String} {j : Int} {b : CandidateRecordN}
    (h : processJobN max_hours rs avail j = some b) :
    b ∈ rs ∧ b.job_id = j ∧ b.carrier_id ∈ avail ∧
      can_workN max_hours b = true :=
  mem_validRowsN.mp (idxminRowN_mem h)

theorem assignLoopN_map_jobId (max_hours : Rat) (rs : List CandidateRecordN) :
    ∀ (js : List Int) (avail : List String),
      (assignLoopN max_hours rs js avail).map AssignmentResultN.jobId = js := by
  intro js
  induction js with
  | nil => intro avail; rfl
  | cons j js ih =>
    intro avail
    rw [assignLoopN]
    cases hp : processJobN max_hours rs avail j with
    | none => simp [resultForJobN, AssignmentResultN.jobId, ih]
    | some best =>
      have hb := processJobN_mem hp
      simp [resultForJobN, AssignmentResultN.jobId, ih, hb.2.1]

theorem mem_assignLoopN_assigned {max_hours : Rat} {rs : List CandidateRecordN} :
    ∀ {js : List Int} {avail : List String} {res : AssignmentResultN},
      res ∈ assignLoopN max_hours rs js avail →
      ∀ {jid : Int} {c : String} {t hb : Option Rat},
        res = AssignmentResultN.assigned jid c t hb →
        t ≠ none ∧ hb ≠ none := by
  intro js
  induction js with
  | nil => intro avail res h; simp [assignLoopN] at h
  | cons j js ih =>
    intro avail res h jid c t hb he
    rw [assignLoopN] at h
    rcases List.mem_cons.mp h with rfl | htail
    · cases hp : processJobN max_hours rs avail j with
      | none => rw [hp] at he; simp [resultForJobN] at he
      | some best =>
        rw [hp] at he
        rw [resultForJobN] at he
        injection he with h1 h2 h3 h4
        have hc := can_workN_cells (processJobN_mem hp).2.2.2
        exact ⟨h3 ▸ hc.1, h4 ▸ hc.2⟩
    · exact ih htail he

/-! ## Job-id ordering lemmas -/

theorem sortedJobIds_perm (rs : List CandidateRecord) :
    List.Perm (sortedJobIds rs) ((rs.map (·.job_id)).dedup) :=
  List.perm_insertionSort _ _

theorem sortedJobIds_nodup (rs : List CandidateRecord) :
    (sortedJobIds rs).Nodup :=
  (sortedJobIds_perm rs).nodup_iff.mpr (List.nodup_dedup _)

theorem mem_sortedJobIds {rs : List CandidateRecord} {j : Int} :
    j ∈ sortedJobIds rs ↔ ∃ r ∈ rs, r.job_id = j := by
  rw [(sortedJobIds_perm rs).mem_iff, List.mem_dedup, List.mem_map]

theorem sortedJobIds_length (rs : List CandidateRecord) :
    (sortedJobIds rs).length = ((rs.map (·.job_id)).dedup).length :=
  (sortedJobIds_perm rs).length_eq

theorem sortedJobIds_sorted (rs : List CandidateRecord) :
    List.Sorted (· ≤ ·) (sortedJobIds rs) :=
  List.sorted_insertionSort _ _

theorem assignLoopDicts_keys (max_hours : Rat) (rs : List CandidateRecord) :
    ∀ (js : List Int) (avail : List String),
      ∀ d ∈ assignLoopDicts max_hours rs js avail,
        d.map Prod.fst = ["job_id", "carrier_id", "p90_time_min"] ∨
          d.map Prod.fst = ["job_id", "carrier_id", "reason"] := by
  intro js
  induction js with
  | nil => intro avail d hd; simp [assignLoopDicts] at hd
  | cons j js ih =>
    intro avail d hd
    rw [assignLoopDicts] at hd
    rcases List.mem_cons.mp hd with rfl | hdt
    · cases processJob max_hours rs avail j with
      | none => right; rfl
      | some best => left; rfl
    · exact ih _ d hdt

/-! ## Claim theorems -/

/-- C1: every Assigned result of `assign_jobs` satisfies the hour cap —
the selected record's `carrier_hours_worked` (taken unchanged from an
input record) plus its predicted time divided by 60 is at most
`max_hours`. -/
theorem hour_cap_respected (rs : List CandidateRecord) (max_hours : Rat)
    (res : AssignmentResult) (h : res ∈ assign_jobs rs max_hours)
    (jid : Int) (c : String) (t hb : Rat)
    (he : res = AssignmentResult.assigned jid c t hb) :
    hb + t / 60 ≤ max_hours ∧
      ∃ r, r ∈ rs ∧ r.carrier_id = c ∧ r.carrier_hours_worked = hb ∧
        r.p90_time_min = t := by
  obtain ⟨r, hmem, hjob, hc, hp, hh, hcw⟩ := mem_assignLoop_assigned h he
  refine ⟨?_, r, hmem, hc, hh, hp⟩
  have hle := can_work_le hcw
  rw [hh, hp] at hle
  exact hle

theorem hour_cap_respected_witness :
    (AssignmentResult.assigned 0 "C1" 10 0 ∈ assign_jobs [⟨"C1", 0, 10, 0⟩] 9) ∧
      (0 : Rat) + 10 / 60 ≤ 9 :=
  ⟨by with_unfolding_all decide,
    (hour_cap_respected [⟨"C1", 0, 10, 0⟩] 9 _ (by with_unfolding_all decide)
      0 "C1" 10 0 rfl).1⟩

/-- C2: each carrier id appears in at most one Assigned result of a run. -/
theorem no_double_assignment (rs : List CandidateRecord) (max_hours : Rat)
    (c : String) :
    (assignedCarriers (assign_jobs rs max_hours)).count c ≤ 1 := by
  have h := assignLoop_carriers_nodup max_hours rs (sortedJobIds rs)
    (initialPool rs) (List.nodup_dedup _)
  exact List.nodup_iff_count_le_one.mp h.1 c

/-- C3: one result per distinct job id — the emitted job ids are
duplicate-free, a job id is emitted exactly when it occurs in the input,
and the output length equals the number of distinct input job ids. -/
theorem coverage_one_result_per_job (rs : List CandidateRecord)
    (max_hours : Rat) :
    ((assign_jobs rs max_hours).map AssignmentResult.jobId).Nodup ∧
      (∀ j : Int, j ∈ (assign_jobs rs max_hours).map AssignmentResult.jobId ↔
        ∃ r ∈ rs, r.job_id = j) ∧
      (assign_jobs rs max_hours).length = ((rs.map (·.job_id)).dedup).length := by
  have hmap := assignLoop_map_jobId max_hours rs (sortedJobIds rs) (initialPool rs)
  refine ⟨?_, ?_, ?_⟩
  · rw [assign_jobs, hmap]; exact sortedJobIds_nodup rs
  · intro j; rw [assign_jobs, hmap]; exact mem_sortedJobIds
  · rw [assign_jobs, assignLoop_length, sortedJobIds_length]

/-- C5 counterexample: with job ids first appearing in the order `[2, 1]`,
the results come back for job 1 first — `df.groupby` sorts the keys, it
does not keep first-appearance order. -/
theorem groupby_order_counterexample :
    ([⟨"C1", 2, 10, 0⟩, ⟨"C2", 1, 10, 0⟩] : List CandidateRecord).map
        (fun r => r.job_id) = [2, 1] ∧
      (assign_jobs [⟨"C1", 2, 10, 0⟩, ⟨"C2", 1, 10, 0⟩] 9).map
        AssignmentResult.jobId = [1, 2] := by
  with_unfolding_all decide

/-- C5 amended: jobs are processed, and results returned, in ascending
sorted order of job id (pandas `groupby` sorts group keys), not in
first-appearance order. -/
theorem results_in_sorted_job_order (rs : List CandidateRecord)
    (max_hours : Rat) :
    (assign_jobs rs max_hours).map AssignmentResult.jobId = sortedJobIds rs ∧
      List.Sorted (· ≤ ·)
        ((assign_jobs rs max_hours).map AssignmentResult.jobId) := by
  have hmap := assignLoop_map_jobId max_hours rs (sortedJobIds rs) (initialPool rs)
  rw [assign_jobs]
  refine ⟨hmap, ?_⟩
  rw [hmap]
  exact sortedJobIds_sorted rs

/-- C6: the pool never grows — an unassigned job leaves it unchanged, an
assigned job removes exactly the selected carrier (which was in the pool),
one step never lengthens it, and pool sizes decrease monotonically along
the whole run trace. -/
theorem pool_never_grows (max_hours : Rat) (rs : List CandidateRecord)
    (avail : List String) (j : Int) :
    (processJob max_hours rs avail j = none →
        stepPool max_hours rs avail j = avail) ∧
      (∀ b, processJob max_hours rs avail j = some b →
        b.carrier_id ∈ avail ∧
          stepPool max_hours rs avail j = avail.erase b.carrier_id) ∧
      (stepPool max_hours rs avail j).length ≤ avail.length ∧
      ∀ js : List Int,
        List.Chain' (fun p q : List String => q.length ≤ p.length)
          (poolTrace max_hours rs js avail) :=
  ⟨stepPool_none,
    fun _ hb => ⟨(processJob_mem hb).2.2.1, stepPool_some hb⟩,
    stepPool_length_le max_hours rs avail j,
    fun js => poolTrace_chain max_hours rs js avail⟩

theorem pool_never_grows_witness :
    "C1" ∈ ["C1"] ∧
      stepPool 9 [⟨"C1", 0, 10, 0⟩] ["C1"] 0 = List.erase ["C1"] "C1" :=
  (pool_never_grows 9 [⟨"C1", 0, 10, 0⟩] ["C1"] 0).2.1 ⟨"C1", 0, 10, 0⟩
    (by with_unfolding_all decide)

/-- C7 counterexample: the emitted reason is the hard-coded string
"No eligible carriers under 9-hour limit" even when `max_hours = 5`, and
it differs from the interpolated "No eligible carriers under 9.0-hour
limit" the claim expects at the default. -/
theorem reason_string_counterexample :
    assign_jobs [⟨"C1", 0, 60, 9⟩] 9 =
      [AssignmentResult.unassigned 0 "No eligible carriers under 9-hour limit"] ∧
      assign_jobs [⟨"C1", 0, 60, 9⟩] 5 =
        [AssignmentResult.unassigned 0 "No eligible carriers under 9-hour limit"] ∧
      "No eligible carriers under 9-hour limit" ≠
        "No eligible carriers under 9.0-hour limit" ∧
      "No eligible carriers under 9-hour limit" ≠
        "No eligible carriers under 5.0-hour limit" := by
  refine ⟨?_, ?_, ?_, ?_⟩ <;> with_unfolding_all decide

/-- C7 amended: every Unassigned result carries the constant reason
string "No eligible carriers under 9-hour limit", whatever `max_hours`
is — no value is interpolated. -/
theorem unassigned_reason_constant (rs : List CandidateRecord)
    (max_hours : Rat) :
    (∀ res ∈ assign_jobs rs max_hours, ∀ (j : Int) (reas : String),
        res = AssignmentResult.unassigned j reas →
        reas = "No eligible carriers under 9-hour limit") ∧
      ∀ (k : Nat) (j : Int), (sortedJobIds rs).get? k = some j →
        processJob max_hours rs
            (poolBeforeJob max_hours rs (sortedJobIds rs) (initialPool rs) k)
            j = none →
        (assign_jobs rs max_hours).get? k =
          some (AssignmentResult.unassigned j noEligibleReason) := by
  constructor
  · intro res hres j reas he
    exact mem_assignLoop_unassigned hres he
  · intro k j hj hp
    rw [assign_jobs,
      assignLoop_get? max_hours rs (sortedJobIds rs) (initialPool rs) k j hj,
      hp, resultForJob]

theorem unassigned_reason_constant_witness :
    (AssignmentResult.unassigned 0 noEligibleReason ∈
        assign_jobs [⟨"C1", 0, 60, 9⟩] 9) ∧
      noEligibleReason = "No eligible carriers under 9-hour limit" :=
  ⟨by with_unfolding_all decide,
    (unassigned_reason_constant [⟨"C1", 0, 60, 9⟩] 9).1 _
      (by with_unfolding_all decide) 0 noEligibleReason rfl⟩

/-- C8 counterexample: the `src/Optimizer.py` copy emits Assigned dicts
with exactly the keys `job_id, carrier_id, p90_time_min` — no
`carrier_hours_before` key. -/
theorem optimizer_dict_keys_counterexample :
    (assign_jobs_Optimizer [⟨"C1", 0, 10, 0⟩] 9).map (List.map Prod.fst) =
      [["job_id", "carrier_id", "p90_time_min"]] ∧
      ((assign_jobs_Optimizer [⟨"C1", 0, 10, 0⟩] 9).all
        (fun d => !((d.map Prod.fst).contains "carrier_hours_before"))) = true := by
  with_unfolding_all decide

/-- C8 amended: in the `src/ml_model/optimizer.py` copy every Assigned
result's four fields are taken from a single input record (so
`carrier_hours_before` equals that record's `carrier_hours_worked`),
while the `src/Optimizer.py` copy emits only
`job_id, carrier_id, p90_time_min` on assignment. -/
theorem assigned_fields_amended (rs : List CandidateRecord)
    (max_hours : Rat) :
    (∀ res ∈ assign_jobs rs max_hours, ∀ jid c t hb,
        res = AssignmentResult.assigned jid c t hb →
        ∃ r, r ∈ rs ∧ r.job_id = jid ∧ r.carrier_id = c ∧
          r.p90_time_min = t ∧ r.carrier_hours_worked = hb) ∧
      ∀ d ∈ assign_jobs_Optimizer rs max_hours,
        d.map Prod.fst = ["job_id", "carrier_id", "p90_time_min"] ∨
          d.map Prod.fst = ["job_id", "carrier_id", "reason"] := by
  constructor
  · intro res hres jid c t hb he
    obtain ⟨r, hmem, hjob, hc, hp, hh, _⟩ := mem_assignLoop_assigned hres he
    exact ⟨r, hmem, hjob, hc, hp, hh⟩
  · exact assignLoopDicts_keys max_hours rs (sortedJobIds rs) (initialPool rs)

theorem assigned_fields_amended_witness :
    ([("job_id", PyVal.vint 0), ("carrier_id", PyVal.vstr "C1"),
        ("p90_time_min", PyVal.vrat 10)] ∈
      assign_jobs_Optimizer [⟨"C1", 0, 10, 2⟩] 9) ∧
      (([("job_id", PyVal.vint 0), ("carrier_id", PyVal.vstr "C1"),
          ("p90_time_min", PyVal.vrat 10)] : List (String × PyVal)).map Prod.fst =
        ["job_id", "carrier_id", "p90_time_min"] ∨
       ([("job_id", PyVal.vint 0), ("carrier_id", PyVal.vstr "C1"),
          ("p90_time_min", PyVal.vrat 10)] : List (String × PyVal)).map Prod.fst =
        ["job_id", "carrier_id", "reason"]) :=
  ⟨by with_unfolding_all decide,
    (assigned_fields_amended [⟨"C1", 0, 10, 2⟩] 9).2 _
      (by with_unfolding_all decide)⟩

/-- C9 counterexample: a record with a missing `carrier_hours_worked`
cell does not make the run fail — the run completes and returns one
result for the job (the record is merely ineligible). -/
theorem missing_field_no_failure_counterexample :
    assign_jobsN [⟨"C1", 0, some 10, none⟩] 9 =
      [AssignmentResultN.unassigned 0 noEligibleReason] ∧
      (assign_jobsN [⟨"C1", 0, some 10, none⟩] 9).length = 1 := by
  with_unfolding_all decide

/-- C9 amended: records with missing (NaN) numeric cells never abort the
run — every distinct job id still receives exactly one result, and any
Assigned result comes from a record whose two numeric cells are both
present (NaN rows are simply ineligible, since NaN comparisons are
false). -/
theorem missing_field_treated_ineligible (rs : List CandidateRecordN)
    (max_hours : Rat) :
    (assign_jobsN rs max_hours).map AssignmentResultN.jobId = sortedJobIdsN rs ∧
      ∀ res ∈ assign_jobsN rs max_hours, ∀ jid c t hb,
        res = AssignmentResultN.assigned jid c t hb →
        t ≠ none ∧ hb ≠ none := by
  constructor
  · exact assignLoopN_map_jobId max_hours rs (sortedJobIdsN rs) (initialPoolN rs)
  · intro res hres jid c t hb he
    exact mem_assignLoopN_assigned hres he

theorem missing_field_treated_ineligible_witness :
    (AssignmentResultN.assigned 0 "C1" (some 10) (some 2) ∈
        assign_jobsN [⟨"C1", 0, some 10, some 2⟩] 9) ∧
      (some (10 : Rat) ≠ none ∧ some (2 : Rat) ≠ none) :=
  ⟨by with_unfolding_all decide,
    (missing_field_treated_ineligible [⟨"C1", 0, some 10, some 2⟩] 9).2 _
      (by with_unfolding_all decide) 0 "C1" (some 10) (some 2) rfl⟩

/-- C10: `idxmin` picks the first row attaining the minimum — the
selected row is no slower than any eligible row, and it is the first row
of the valid frame whose time equals its own (so ties go to the earliest
row in input order). -/
theorem tie_break_first_min (max_hours : Rat) (rs : List CandidateRecord)
    (avail : List String) (j : Int) (b : CandidateRecord)
    (h : processJob max_hours rs avail j = some b) :
    (∀ x ∈ validRows max_hours rs avail j,
        b.p90_time_min ≤ x.p90_time_min) ∧
      (validRows max_hours rs avail j).find?
        (fun x => decide (x.p90_time_min = b.p90_time_min)) = some b := by
  rw [processJob] at h
  exact ⟨idxminRow_min h, idxminRow_first h⟩

theorem tie_break_first_min_witness :
    (processJob 9 [⟨"C1", 0, 10, 0⟩, ⟨"C2", 0, 10, 0⟩] ["C1", "C2"] 0 =
        some ⟨"C1", 0, 10, 0⟩) ∧
      (validRows 9 [⟨"C1", 0, 10, 0⟩, ⟨"C2", 0, 10, 0⟩] ["C1", "C2"] 0).find?
          (fun x => decide (x.p90_time_min =
            (⟨"C1", 0, 10, 0⟩ : CandidateRecord).p90_time_min)) =
        some ⟨"C1", 0, 10, 0⟩ :=
  ⟨by with_unfolding_all decide,
    (tie_break_first_min 9 [⟨"C1", 0, 10, 0⟩, ⟨"C2", 0, 10, 0⟩] ["C1", "C2"] 0
      ⟨"C1", 0, 10, 0⟩ (by with_unfolding_all decide)).2⟩

/-- C4: the carrier assigned at position `k` of the result list is no
slower than any input record for the same job whose carrier is still in
the pool held at that point and which passes the hour cap. -/
theorem assigned_is_fastest_eligible (rs : List CandidateRecord)
    (max_hours : Rat) (k : Nat) (jid : Int) (c : String) (t hb : Rat)
    (h : (assign_jobs rs max_hours).get? k =
      some (AssignmentResult.assigned jid c t hb)) :
    ∀ r ∈ rs, r.job_id = jid →
      r.carrier_id ∈
        poolBeforeJob max_hours rs (sortedJobIds rs) (initialPool rs) k →
      can_work max_hours r = true → t ≤ r.p90_time_min := by
  intro r hr hjid hpool hcw
  have hk : k < (assign_jobs rs max_hours).length := by
    rcases Nat.lt_or_ge k (assign_jobs rs max_hours).length with hlt | hge
    · exact hlt
    · rw [List.get?_eq_none.mpr hge] at h
      exact Option.noConfusion h
  have hk' : k < (sortedJobIds rs).length := by
    rw [assign_jobs, assignLoop_length] at hk
    exact hk
  have hj : (sortedJobIds rs).get? k =
      some ((sortedJobIds rs).get ⟨k, hk'⟩) := List.get?_eq_get hk'
  have hgl := assignLoop_get? max_hours rs (sortedJobIds rs) (initialPool rs)
    k _ hj
  rw [assign_jobs, hgl] at h
  injection h with h
  cases hp : processJob max_hours rs
      (poolBeforeJob max_hours rs (sortedJobIds rs) (initialPool rs) k)
      ((sortedJobIds rs).get ⟨k, hk'⟩) with
  | none =>
    rw [hp, resultForJob] at h
    exact AssignmentResult.noConfusion h
  | some best =>
    rw [hp, resultForJob] at h
    injection h with h1 h2 h3 h4
    have hbj : best.job_id = (sortedJobIds rs).get ⟨k, hk'⟩ :=
      (processJob_mem hp).2.1
    have hrv : r ∈ validRows max_hours rs
        (poolBeforeJob max_hours rs (sortedJobIds rs) (initialPool rs) k)
        ((sortedJobIds rs).get ⟨k, hk'⟩) :=
      mem_validRows.mpr ⟨hr, by rw [hjid, ← h1, hbj], hpool, hcw⟩
    rw [processJob] at hp
    have hmin := idxminRow_min hp r hrv
    rw [h3] at hmin
    exact hmin

theorem assigned_is_fastest_eligible_witness :
    ((assign_jobs [⟨"C1", 0, 10, 0⟩, ⟨"C2", 0, 20, 0⟩] 9).get? 0 =
        some (AssignmentResult.assigned 0 "C1" 10 0)) ∧
      (10 : Rat) ≤ 20 :=
  ⟨by with_unfolding_all decide,
    assigned_is_fastest_eligible [⟨"C1", 0, 10, 0⟩, ⟨"C2", 0, 20, 0⟩] 9 0
      0 "C1" 10 0 (by with_unfolding_all decide) ⟨"C2", 0, 20, 0⟩
      (by with_unfolding_all decide) rfl (by with_unfolding_all decide)
      (by with_unfolding_all decide)⟩
